import Mathlib

/-!
Verification of the OrganizerAgent orchestration core: a shallow embedding of
the schema generator (`src/tools/tool_schema.py`), the response parser
(`src/ai_models/gemini_integration.py`) and the dispatcher (`src/agent.py`),
together with theorems settling the specification's claims about them.
-/

namespace Organizer

/-- Decimal rendering of a natural number, modelling Python's `str(n)`. -/
def pyStr (n : Nat) : String :=
  if n = 0 then "0" else ⟨((Nat.digits 10 n).reverse.map Nat.digitChar)⟩

/-- Python `dict` assignment `d[k] = v`: update the value in place when the key
is present, append at the end otherwise (insertion order is preserved). -/
def pyDictInsert {α : Type} (k : String) (v : α) : List (String × α) → List (String × α)
  | [] => [(k, v)]
  | (k', v') :: rest => if k' = k then (k', v) :: rest else (k', v') :: pyDictInsert k v rest

/-- Structural worker for `pySplitOn`: the fuel decreases at every step, so
the definition reduces in the kernel; the initial fuel (the string length) is
always sufficient for a non-empty separator. -/
def splitOnAux (sep : List Char) : Nat → List Char → List Char → List (List Char)
  | 0, cs, acc => [acc.reverse ++ cs]
  | fuel + 1, cs, acc =>
    match cs with
    | [] => [acc.reverse]
    | c :: rest =>
      if sep.isPrefixOf (c :: rest) then
        acc.reverse :: splitOnAux sep fuel ((c :: rest).drop sep.length) []
      else
        splitOnAux sep fuel rest (c :: acc)

/-- Python `s.split(sep)` for a non-empty separator. -/
def pySplitOn (s sep : String) : List String :=
  (splitOnAux sep.toList s.toList.length s.toList []).map (fun cs => (⟨cs⟩ : String))

/-- Python `s.strip()`: remove leading and trailing whitespace. -/
def pyStrip (s : String) : String :=
  ⟨((s.toList.dropWhile Char.isWhitespace).reverse.dropWhile Char.isWhitespace).reverse⟩

/-- Python `c in s` for a single character. -/
def pyContains (s : String) (c : Char) : Bool := s.toList.contains c

/-- The prefix of `s` on which `p` holds (`s[:s.index(c)]` when `p` rejects
exactly `c` and `c` occurs). -/
def pyTakeWhile (s : String) (p : Char → Bool) : String := ⟨s.toList.takeWhile p⟩

/-- Python `s.startswith(pre)`. -/
def pyStartsWith (s pre : String) : Bool := pre.toList.isPrefixOf s.toList

/-- Python `sep.join(parts)`. -/
def pyJoin (sep : String) : List String → String
  | [] => ""
  | [p] => p
  | p :: rest => p ++ sep ++ pyJoin sep rest

/-- Python `s.split(sep, 2)`: at most two splits, the remainder is kept whole. -/
def pySplitAtMost2 (s sep : String) : List String :=
  let parts := pySplitOn s sep
  if parts.length ≤ 3 then parts
  else parts.take 2 ++ [pyJoin sep (parts.drop 2)]

/-- Python `s.strip("'\"")`: remove leading and trailing quote characters. -/
def stripQuotes (s : String) : String :=
  ⟨((s.toList.dropWhile (fun c => c = '\'' || c = '"')).reverse.dropWhile
      (fun c => c = '\'' || c = '"')).reverse⟩

/-- `os.path.basename`: the final path component. -/
def basename (p : String) : String := ((pySplitOn p "/").getLast?).getD ""

/-!
### Schema generator (`src/src/tools/tool_schema.py`)

A callable is embedded by its introspectable surface: name, docstring
(already the result of `inspect.getdoc(func) or ""`), and the declared
parameter list in declaration order, each with an optional type annotation
and a flag saying whether a default value is present.
-/

/-- A Python type annotation, as compared against `int`, `float`, `bool` by
`_build_schema`; `custom` stands for any other annotation object. -/
inductive PyType where
  | int
  | float
  | bool
  | str
  | custom (s : String)
deriving DecidableEq, Repr

/-- One declared parameter of a callable: `annot = none` models
`inspect.Parameter.empty`, `hasDefault` models `param.default != empty`. -/
structure Param where
  name : String
  annot : Option PyType
  hasDefault : Bool
deriving DecidableEq, Repr

/-- The introspectable surface of a callable: `doc` is
`inspect.getdoc(func) or ""`. -/
structure PyFunc where
  name : String
  doc : String
  params : List Param
deriving DecidableEq, Repr

/-- One entry of the `properties` dict of a built schema. -/
structure PropEntry where
  type : String
  description : String
deriving DecidableEq, Repr

/-- The `parameters` / `input_schema` sub-dict of a built schema. -/
structure ParamsSchema where
  type : String
  properties : List (String × PropEntry)
  required : List String
deriving DecidableEq, Repr

/-- A built tool schema whose parameter block is keyed `parameters`
(Gemini and OpenAI formats). -/
structure ToolSchema where
  name : String
  description : String
  parameters : ParamsSchema
deriving DecidableEq, Repr

/-- A built tool schema whose parameter block is keyed `input_schema`
(Anthropic format). -/
structure ToolSchemaAnthropic where
  name : String
  description : String
  input_schema : ParamsSchema
deriving DecidableEq, Repr

/-- The `param_descriptions` dict built by each `_build_schema`: for each
docstring line whose stripped form starts with `:param `, the name is
`line.split(':param ')[1].split(':')[0].strip()` and the description is
`line.split(':', 2)[-1].strip()`. -/
def paramDescriptions (doc : String) : List (String × String) :=
  (pySplitOn doc "\n").foldl (fun pd line =>
    if pyStartsWith (pyStrip line) ":param " then
      let pname := pyStrip ((pySplitOn (((pySplitOn line ":param ").get? 1).getD "") ":").headD "")
      let pdesc := pyStrip (((pySplitAtMost2 line ":").getLast?).getD "")
      pyDictInsert pname pdesc pd
    else pd) []

/-- The schema description: `doc.split('\n\n')[0] if doc else ''`. -/
def docDescription (doc : String) : String :=
  if doc = "" then "" else (pySplitOn doc "\n\n").headD ""

/-- Loop body of `SchemaBuilderGemini._build_schema` (tool_schema.py lines 49-66):
skip a parameter named `self`, infer the type token, record the property and,
when the parameter has no default, append it to `required`. -/
def geminiParamStep (pd : List (String × String)) (acc : ParamsSchema) (p : Param) : ParamsSchema :=
  if p.name = "self" then acc
  else
    let jsonType :=
      match p.annot with
      | some .int => "NUMBER"
      | some .float => "NUMBER"
      | some .bool => "BOOLEAN"
      | _ => "STRING"
    let acc := { acc with
      properties := pyDictInsert p.name ⟨jsonType, (pd.lookup p.name).getD ""⟩ acc.properties }
    if p.hasDefault then acc else { acc with required := acc.required ++ [p.name] }

/-- `SchemaBuilderGemini._build_schema` (src/src/tools/tool_schema.py lines 30-66). -/
def schemaGemini (f : PyFunc) : ToolSchema :=
  ⟨f.name, docDescription f.doc,
    f.params.foldl (geminiParamStep (paramDescriptions f.doc)) ⟨"OBJECT", [], []⟩⟩

/-- Loop body of `SchemaBuilderOpenAI._build_schema` (tool_schema.py lines 101-118);
identical to the Gemini one except for lower-case type tokens. -/
def openAIParamStep (pd : List (String × String)) (acc : ParamsSchema) (p : Param) : ParamsSchema :=
  if p.name = "self" then acc
  else
    let jsonType :=
      match p.annot with
      | some .int => "number"
      | some .float => "number"
      | some .bool => "boolean"
      | _ => "string"
    let acc := { acc with
      properties := pyDictInsert p.name ⟨jsonType, (pd.lookup p.name).getD ""⟩ acc.properties }
    if p.hasDefault then acc else { acc with required := acc.required ++ [p.name] }

/-- `SchemaBuilderOpenAI._build_schema` (src/src/tools/tool_schema.py lines 87-118). -/
def schemaOpenAI (f : PyFunc) : ToolSchema :=
  ⟨f.name, docDescription f.doc,
    f.params.foldl (openAIParamStep (paramDescriptions f.doc)) ⟨"object", [], []⟩⟩

/-- Loop body of `SchemaBuilderAnthropic._build_schema` (tool_schema.py lines 155-172);
upper-case type tokens, like the Gemini one. -/
def anthropicParamStep (pd : List (String × String)) (acc : ParamsSchema) (p : Param) : ParamsSchema :=
  if p.name = "self" then acc
  else
    let jsonType :=
      match p.annot with
      | some .int => "NUMBER"
      | some .float => "NUMBER"
      | some .bool => "BOOLEAN"
      | _ => "STRING"
    let acc := { acc with
      properties := pyDictInsert p.name ⟨jsonType, (pd.lookup p.name).getD ""⟩ acc.properties }
    if p.hasDefault then acc else { acc with required := acc.required ++ [p.name] }

/-- `SchemaBuilderAnthropic._build_schema` (src/src/tools/tool_schema.py lines 139-172);
the parameter block is stored under `input_schema` with a lower-case object token. -/
def schemaAnthropic (f : PyFunc) : ToolSchemaAnthropic :=
  ⟨f.name, docDescription f.doc,
    f.params.foldl (anthropicParamStep (paramDescriptions f.doc)) ⟨"object", [], []⟩⟩

/-- The property entry `_build_schema` records for a parameter: the type token
inferred from its annotation and the docstring description (Gemini casing). -/
def geminiEntry (pd : List (String × String)) (p : Param) : PropEntry :=
  ⟨match p.annot with
    | some .int => "NUMBER"
    | some .float => "NUMBER"
    | some .bool => "BOOLEAN"
    | _ => "STRING",
   (pd.lookup p.name).getD ""⟩

/-- The lower-casing of the schema type tokens: the only way the OpenAI
builder's tokens differ from the Gemini/Anthropic ones. -/
def lowerTypeToken : String → String
  | "STRING" => "string"
  | "NUMBER" => "number"
  | "BOOLEAN" => "boolean"
  | "OBJECT" => "object"
  | t => t

/-!
### Response parser (`src/src/ai_models/gemini_integration.py`)
-/

/-- A runtime value passing through the orchestration layer: model-supplied
strings, lists of path strings, `None`, and the task lists returned by
`extract_info_from_todo` (typed `List[Tuple[str, Dict[str, str]]]` in
`system_tools.py`). -/
inductive Value where
  | str (s : String)
  | strList (ss : List String)
  | pyNone
  | taskList (ts : List (String × List (String × String)))
deriving DecidableEq, Repr

/-- One function call record: the OrderedDict `{'name': …, 'args': …}`. -/
structure Call where
  name : String
  args : List (String × Value)
deriving DecidableEq, Repr

/-- A part of a Gemini candidate: a truthy `function_call`, a truthy `text`,
neither, or an object on which attribute access raises. -/
inductive Part where
  | functionCall (name : String) (args : List (String × Value))
  | text (s : String)
  | neither
  | bad
deriving DecidableEq, Repr

/-- A candidate; `bad` models one on which `candidate.content.parts` raises. -/
inductive Candidate where
  | ok (parts : List Part)
  | bad
deriving DecidableEq, Repr

/-- A Gemini response; `bad` models a value on which `response.candidates`
raises. -/
inductive GeminiResponse where
  | ok (candidates : List Candidate)
  | bad
deriving DecidableEq, Repr

/-- A diagnostic printed by `extract_function_call`. -/
inductive Diag where
  | skipInvalidLine (line : String)
  | skipInvalidName (name : String)
  | errorExtract
deriving DecidableEq, Repr

/-- Parser state: the `ordered_function_calls` dict plus printed diagnostics. -/
structure PState where
  calls : List (String × Call)
  diags : List Diag
deriving DecidableEq, Repr

def initPState : PState := ⟨[], []⟩

/-- `ordered_function_calls[str(len(ordered_function_calls))] = function_call`
(gemini_integration.py lines 88 and 124). -/
def addCall (c : Call) (st : PState) : PState :=
  { st with calls := pyDictInsert (pyStr st.calls.length) c st.calls }

/-- The `for arg_pair in args_str.split(',')` loop body (lines 114-121): skip a
blank pair or one without `=`, otherwise split on the first `=`, strip
whitespace and quote characters from key and value, and store the pair. -/
def argPairStep (args : List (String × Value)) (pairRaw : String) : List (String × Value) :=
  let pair := pyStrip pairRaw
  if pair = "" || !(pyContains pair '=') then args
  else
    let keyPart := pyTakeWhile pair (fun c => c ≠ '=')
    let valuePart := pair.drop (keyPart.length + 1)
    pyDictInsert (stripQuotes (pyStrip keyPart)) (Value.str (stripQuotes (pyStrip valuePart))) args

def parseArgPairs (argsStr : String) : List (String × Value) :=
  (pySplitOn argsStr ",").foldl argPairStep []

/-- Outcome of processing one text line: a parsed call, or a skip carrying the
diagnostic printed (none for a blank line). -/
inductive LineResult where
  | call (c : Call)
  | skip (d : Option Diag)
deriving DecidableEq, Repr

def lineCallOf : LineResult → Option Call
  | .call c => some c
  | .skip _ => none

def lineDiagOf : LineResult → Option Diag
  | .call _ => none
  | .skip d => d

/-- The body of the per-line loop (lines 94-128). A line is skipped silently
when blank, with a diagnostic when it has no `(` or no `)` or when its name
(after stripping a `default_api.` prefix) is not a valid tool name; otherwise
the text between the first `(` and the last `)` is parsed as argument pairs. -/
def parseLine (valid : List String) (rawLine : String) : LineResult :=
  let line := pyStrip rawLine
  if line = "" then .skip none
  else if !(pyContains line '(' && pyContains line ')') then
    .skip (some (.skipInvalidLine line))
  else
    let name0 := pyStrip (pyTakeWhile line (fun c => c ≠ '('))
    let name := if pyStartsWith name0 "default_api." then name0.drop 12 else name0
    if !(valid.contains name) then .skip (some (.skipInvalidName name))
    else
      let afterParen := (line.toList.dropWhile (fun c => c ≠ '(')).drop 1
      let argsStr : String := ⟨((afterParen.reverse.dropWhile (fun c => c ≠ ')')).drop 1).reverse⟩
      .call ⟨name, parseArgPairs argsStr⟩

/-- One iteration of `for line in lines`. -/
def lineStep (valid : List String) (st : PState) (rawLine : String) : PState :=
  match parseLine valid rawLine with
  | .call c => addCall c st
  | .skip (some d) => { st with diags := st.diags ++ [d] }
  | .skip none => st

def runLines (valid : List String) (lines : List String) (st : PState) : PState :=
  lines.foldl (lineStep valid) st

/-- The `elif part.text` branch: `part.text.strip().split('\n')`, then the
line loop. -/
def processText (valid : List String) (s : String) (st : PState) : PState :=
  runLines valid (pySplitOn (pyStrip s) "\n") st

/-- Walk the parts of one candidate; `.error` models an exception raised while
accessing a part, carrying the state at the moment of the raise. -/
def walkParts (valid : List String) : List Part → PState → Except PState PState
  | [], st => .ok st
  | .bad :: _, st => .error st
  | .functionCall n args :: rest, st => walkParts valid rest (addCall ⟨n, args⟩ st)
  | .text s :: rest, st => walkParts valid rest (processText valid s st)
  | .neither :: rest, st => walkParts valid rest st

def walkCandidates (valid : List String) : List Candidate → PState → Except PState PState
  | [], st => .ok st
  | .bad :: _, st => .error st
  | .ok parts :: rest, st =>
    match walkParts valid parts st with
    | .ok st' => walkCandidates valid rest st'
    | .error st' => .error st'

/-- `GeminiIntegration.extract_function_call` (lines 68-134): walk the
response; any exception raised while walking is caught by the outer
`try/except`, which prints a diagnostic and returns a fresh empty
OrderedDict. The function is total: no exception reaches the caller. -/
def extractFunctionCall (valid : List String) (resp : GeminiResponse) :
    List (String × Call) × List Diag :=
  match resp with
  | .bad => ([], [.errorExtract])
  | .ok cands =>
    match walkCandidates valid cands initPState with
    | .ok st => (st.calls, st.diags)
    | .error st => ([], st.diags ++ [.errorExtract])

def partBad : Part → Bool
  | .bad => true
  | _ => false

def candidateBad : Candidate → Bool
  | .bad => true
  | .ok parts => parts.any partBad

/-- Whether walking the response raises somewhere: a bad response object, a bad
candidate, or a bad part. -/
def responseBad : GeminiResponse → Bool
  | .bad => true
  | .ok cands => cands.any candidateBad

/-- An independent description of the parse of a fully well-formed response:
fold every part of every candidate, in order. -/
def partStep (valid : List String) (st : PState) : Part → PState
  | .functionCall n args => addCall ⟨n, args⟩ st
  | .text s => processText valid s st
  | .neither => st
  | .bad => st

def goodParse (valid : List String) : GeminiResponse → List (String × Call)
  | .bad => []
  | .ok cands =>
    (cands.foldl (fun st c =>
      match c with
      | .ok parts => parts.foldl (partStep valid) st
      | .bad => st) initPState).calls

/-!
### Dispatcher (`src/src/agent.py`)
-/

/-- The nine keys of `Agent.function_map` (agent.py lines 34-44); the
concrete capabilities behind them are external collaborators, supplied to the
dispatcher as an oracle (`Impl`). -/
def functionMap : List String :=
  ["get_directory_name", "scan_directory", "identify_file_types",
   "organize_files_by_type", "compress_image", "compress_pdf",
   "send_email", "add_calendar_event", "schedule_daily_stock_update"]

/-- `Agent.arg_mapping` (agent.py lines 47-59). -/
def argMapping : List (String × String) :=
  [("email_address", "recipient"), ("email_subject", "email_subject"),
   ("email_body", "email_body"), ("event_name", "event_name"),
   ("event_date", "event_date"), ("event_start_time", "event_start_time"),
   ("event_end_time", "event_end_time"), ("shared_with", "shared_with"),
   ("stock_symbol", "stock_symbol"), ("scheduled_time", "scheduled_time"),
   ("recipient", "recipient")]

/-- A Python exception value as observed by the dispatcher's `except` blocks. -/
inductive PyErr where
  | keyError (k : String)
  | unknownFunctionCall (name : String)
  | missingResult (srcId : String)
  | typeError
  | capability (msg : String)
deriving DecidableEq, Repr

/-- A line printed by `execute_function_calls`. -/
inductive LogEntry where
  | resultOf (name : String) (v : Value)
  | resultOfTodo (name : String) (v : Value)
  | warningTodoNotFound
  | errorExecuting (e : PyErr)
deriving DecidableEq, Repr

/-- The dispatcher's observable state during one pass of
`execute_function_calls`: the `results` dict, the `current_path` local, the
sequence of capability invocations actually performed, the printed log, and
the exception (if any) caught by the pass-level `except`. -/
structure ExecState where
  results : List (String × Value)
  currentPath : Option Value
  trace : List (String × List (String × Value))
  log : List LogEntry
  aborted : Option PyErr
deriving DecidableEq, Repr

def initState : ExecState := ⟨[], none, [], [], none⟩

/-- The capability oracle: the behaviour of the real callables named by
`function_map`, invoked as `function_to_call(**arguments)`. -/
abbrev Impl := String → List (String × Value) → Except String Value

/-- The loop body of `Agent.prepare_arguments` (agent.py lines 229-233):
rewrite the key through `arg_mapping` (identity when absent), store the value,
and wrap a string `attendees` value into a one-element list. -/
def mapArgStep (acc : List (String × Value)) (kv : String × Value) : List (String × Value) :=
  let mappedKey := (argMapping.lookup kv.1).getD kv.1
  let acc := pyDictInsert mappedKey kv.2 acc
  match kv.2 with
  | .str s => if mappedKey = "attendees" then pyDictInsert mappedKey (.strList [s]) acc else acc
  | _ => acc

/-- `Agent.prepare_arguments` (agent.py lines 220-234): the lookup
`function_map[function_name]` on line 225 raises `KeyError` for a name absent
from the registry; otherwise the arguments are re-keyed. -/
def prepareArguments (fc : Call) : Except PyErr (List (String × Value)) :=
  if functionMap.contains fc.name then .ok (fc.args.foldl mapArgStep [])
  else .error (.keyError fc.name)

/-- The result-substitution loop (agent.py lines 173-179): a string argument
`<result_from_K>` is replaced by `results[K]` (only string values are
inspected, mirroring the `isinstance(arg_value, str)` check); a back-reference
to an id absent from `results` raises `ValueError`. -/
def substResults (results : List (String × Value)) :
    List (String × Value) → Except PyErr (List (String × Value))
  | [] => .ok []
  | (k, .str s) :: rest =>
    if pyStartsWith s "<result_from_" then
      let sourceCallId := (s.drop 13).dropRight 1
      match results.lookup sourceCallId with
      | some rv =>
        match substResults results rest with
        | .ok r => .ok ((k, rv) :: r)
        | .error e => .error e
      | none => .error (.missingResult sourceCallId)
    else
      match substResults results rest with
      | .ok r => .ok ((k, .str s) :: r)
      | .error e => .error e
  | (k, v) :: rest =>
    match substResults results rest with
    | .ok r => .ok ((k, v) :: r)
    | .error e => .error e

/-- `Agent.dispatch_function` (agent.py lines 237-251): a name absent from
`function_map` raises `ValueError`; otherwise the capability is invoked (the
invocation is recorded in the trace) and its result or exception returned. -/
def dispatchFunction (impl : Impl) (name : String) (args : List (String × Value))
    (st : ExecState) : Except (PyErr × ExecState) (Value × ExecState) :=
  if functionMap.contains name then
    let st := { st with trace := st.trace ++ [(name, args)] }
    match impl name args with
    | .ok v => .ok (v, st)
    | .error msg => .error (.capability msg, st)
  else .error (.unknownFunctionCall name, st)

/-- The `for f_path in file_list` search for `todo.txt` (agent.py lines
185-190): iterating a list of paths compares basenames; iterating a string
yields single characters, never equal to `todo.txt`; iterating a
non-iterable value raises. -/
def findTodoPath : Value → Except PyErr (Option String)
  | .strList files => .ok (files.find? (fun f => basename f == "todo.txt"))
  | .str _ => .ok none
  | _ => .error .typeError

/-- The `for task_name, task_args in todo_tasks` loop (agent.py lines 198-200). -/
def execTodoTasks (impl : Impl) :
    List (String × List (String × String)) → ExecState → Except (PyErr × ExecState) ExecState
  | [], st => .ok st
  | (taskName, taskArgs) :: rest, st =>
    match dispatchFunction impl taskName (taskArgs.map (fun kv => (kv.1, Value.str kv.2))) st with
    | .error est => .error est
    | .ok (r, st') => execTodoTasks impl rest { st' with log := st'.log ++ [.resultOfTodo taskName r] }

/-- The special `extract_info_from_todo` block (agent.py lines 181-203).
Unreachable in the shipped code: `prepare_arguments` raises `KeyError` for
this name before the block is tested, and `dispatch_function` would raise
again inside it, because `extract_info_from_todo` is not in `function_map`.
Non-list truthy `todo_tasks` values, whose iteration would raise, are dead
under the always-raising dispatch and are modelled as skipping the loop. -/
def todoBlock (impl : Impl) (callId : String) (mappedArgs : List (String × Value))
    (st : ExecState) : Except (PyErr × ExecState) ExecState :=
  match mappedArgs.lookup "file_path" with
  | none => .ok st
  | some fileList =>
    match findTodoPath fileList with
    | .error e => .error (e, st)
    | .ok none => .ok { st with log := st.log ++ [.warningTodoNotFound] }
    | .ok (some todoPath) =>
      match dispatchFunction impl "extract_info_from_todo"
          (pyDictInsert "file_path" (.str todoPath) mappedArgs) st with
      | .error est => .error est
      | .ok (todoTasks, st') =>
        let st' := { st' with results := pyDictInsert callId todoTasks st'.results }
        match todoTasks with
        | .taskList ts => if ts.isEmpty then .ok st' else execTodoTasks impl ts st'
        | _ => .ok st'

/-- One iteration of the `for call_id, function_call in function_calls.items()`
loop (agent.py lines 165-213): prepare the arguments, substitute
back-references, then either run the `extract_info_from_todo` block or
dispatch, remember a `get_directory_name` result in `current_path`, and store
the result under the call id. -/
def execStep (impl : Impl) (callId : String) (fc : Call) (st : ExecState) :
    Except (PyErr × ExecState) ExecState :=
  match prepareArguments fc with
  | .error e => .error (e, st)
  | .ok mappedArgs =>
    match substResults st.results mappedArgs with
    | .error e => .error (e, st)
    | .ok resolvedArgs =>
      if fc.name = "extract_info_from_todo" then todoBlock impl callId resolvedArgs st
      else
        match dispatchFunction impl fc.name resolvedArgs st with
        | .error est => .error est
        | .ok (v, st') =>
          let st' := if fc.name = "get_directory_name" then { st' with currentPath := some v } else st'
          .ok { st' with results := pyDictInsert callId v st'.results,
                         log := st'.log ++ [.resultOf fc.name v] }

/-- The dispatch loop with its surrounding `try/except` (agent.py lines
164-218): an exception raised by any iteration is caught, logged as
`Error executing functions: …`, and ends the pass; no later call runs. -/
def execLoop (impl : Impl) : List (String × Call) → ExecState → ExecState
  | [], st => st
  | (callId, fc) :: rest, st =>
    if st.aborted.isSome then st
    else
      match execStep impl callId fc st with
      | .ok st' => execLoop impl rest st'
      | .error (e, st') => { st' with aborted := some e, log := st'.log ++ [.errorExecuting e] }

/-- `Agent.execute_function_calls` (agent.py lines 156-218). -/
def executeFunctionCalls (impl : Impl) (functionCalls : List (String × Call)) : ExecState :=
  execLoop impl functionCalls initState

/-- A capability environment where every tool succeeds with a string result. -/
def implOk : Impl := fun _ _ => .ok (.str "ok")

/-- A capability environment where every tool returns the path `/tmp`. -/
def implTmp : Impl := fun _ _ => .ok (.str "/tmp")

/-- A capability environment where `compress_pdf` raises and everything else
succeeds. -/
def implPdfBoom : Impl :=
  fun name _ => if name = "compress_pdf" then .error "boom" else .ok (.str "ok")

/-- A capability environment where `get_directory_name` returns a directory
and every other tool returns an empty file list. -/
def implDir : Impl :=
  fun name _ =>
    if name = "get_directory_name" then .ok (.str "/tmp/organize") else .ok (.strList [])

/-- Invariant of the parser's call dict: it is keyed `"0", "1", …` in
insertion order. -/
def goodKeysL (l : List (String × Call)) : Prop :=
  l.map Prod.fst = (List.range l.length).map pyStr

/-!
## Theorems

Helper lemmas first, then one theorem per claim (with counterexamples and
witnesses where required).
-/

theorem digitChar_inj {a b : Nat} (ha : a < 10) (hb : b < 10)
    (h : Nat.digitChar a = Nat.digitChar b) : a = b := by
  interval_cases a <;> interval_cases b <;> simp_all [Nat.digitChar]

theorem map_digitChar_inj : ∀ {l l' : List Nat}, (∀ d ∈ l, d < 10) → (∀ d ∈ l', d < 10) →
    l.map Nat.digitChar = l'.map Nat.digitChar → l = l'
  | [], [], _, _, _ => rfl
  | [], _ :: _, _, _, h => by simp at h
  | _ :: _, [], _, _, h => by simp at h
  | a :: l, b :: l', hl, hl', h => by
    simp only [List.map_cons, List.cons.injEq] at h
    have hab := digitChar_inj (hl a (by simp)) (hl' b (by simp)) h.1
    have := map_digitChar_inj (fun d hd => hl d (by simp [hd]))
      (fun d hd => hl' d (by simp [hd])) h.2
    simp [hab, this]

theorem pyStr_zero_ne {n : Nat} (hn : n ≠ 0) : pyStr n ≠ "0" := by
  intro h
  unfold pyStr at h
  rw [if_neg hn] at h
  have hdig : ((Nat.digits 10 n).reverse.map Nat.digitChar) = ['0'] := by
    have := congrArg String.data h
    simpa using this
  have hrev : (Nat.digits 10 n).reverse = [(0 : Nat)] := by
    apply map_digitChar_inj
    · intro d hd
      exact Nat.digits_lt_base (by norm_num) (List.mem_reverse.mp hd)
    · intro d hd
      simp at hd; omega
    · simpa [Nat.digitChar] using hdig
  have hds : Nat.digits 10 n = [0] := by
    have := congrArg List.reverse hrev
    simpa using this
  have := Nat.getLast_digit_ne_zero 10 hn
  simp [hds] at this

theorem pyStr_inj : Function.Injective pyStr := by
  intro m n h
  by_cases hm : m = 0 <;> by_cases hn : n = 0
  · omega
  · subst hm
    exact absurd h.symm (by simpa [pyStr] using pyStr_zero_ne hn)
  · subst hn
    exact absurd h (by simpa [pyStr] using pyStr_zero_ne hm)
  · unfold pyStr at h
    rw [if_neg hm, if_neg hn] at h
    have hdata := congrArg String.data h
    simp only at hdata
    have hmap : (Nat.digits 10 m).reverse.map Nat.digitChar
        = (Nat.digits 10 n).reverse.map Nat.digitChar := hdata
    have hrev := map_digitChar_inj
      (fun d hd => Nat.digits_lt_base (by norm_num) (List.mem_reverse.mp hd))
      (fun d hd => Nat.digits_lt_base (by norm_num) (List.mem_reverse.mp hd)) hmap
    have : Nat.digits 10 m = Nat.digits 10 n := by
      have := congrArg List.reverse hrev
      simpa using this
    exact Nat.digits_inj_iff.mp this

theorem pyDictInsert_fresh {α : Type} (k : String) :
    ∀ (l : List (String × α)), k ∉ l.map Prod.fst → ∀ (v : α), pyDictInsert k v l = l ++ [(k, v)]
  | [], _, _ => rfl
  | (k', v') :: rest, h, v => by
    have hk : k' ≠ k := by
      intro hkk; exact h (by simp [hkk])
    simp only [pyDictInsert, if_neg hk, List.cons_append, List.cons.injEq, true_and]
    exact pyDictInsert_fresh k rest (fun hm => h (by simp [hm])) v

theorem pyDictInsert_map {α β : Type} (g : α → β) (k : String) (v : α) :
    ∀ (l : List (String × α)),
      pyDictInsert k (g v) (l.map (fun kv => (kv.1, g kv.2)))
        = (pyDictInsert k v l).map (fun kv => (kv.1, g kv.2))
  | [] => rfl
  | (k', v') :: rest => by
    by_cases hk : k' = k
    · simp [pyDictInsert, hk]
    · simp only [List.map_cons, pyDictInsert, if_neg hk]
      simp [pyDictInsert_map g k v rest]

theorem pyDictInsert_values {α : Type} (k : String) (v : α) :
    ∀ (l : List (String × α)) x, x ∈ pyDictInsert k v l → x ∈ l ∨ x.2 = v
  | [], x, hx => by
    simp [pyDictInsert] at hx
    right; simp [hx]
  | (k', v') :: rest, x, hx => by
    by_cases hk : k' = k
    · simp only [pyDictInsert, if_pos hk] at hx
      rcases List.mem_cons.mp hx with h | h
      · right; simp [h]
      · left; exact List.mem_cons_of_mem _ h
    · simp only [pyDictInsert, if_neg hk] at hx
      rcases List.mem_cons.mp hx with h | h
      · left; simp [h]
      · rcases pyDictInsert_values k v rest x h with h' | h'
        · left; exact List.mem_cons_of_mem _ h'
        · right; exact h'

/-! ### Schema generator lemmas (claims C6 and C7) -/

theorem geminiFold_spec (pd : List (String × String)) :
    ∀ (params : List Param) (acc : ParamsSchema),
      (params.map Param.name).Nodup →
      (∀ p ∈ params, p.name ∉ acc.properties.map Prod.fst) →
      (params.foldl (geminiParamStep pd) acc).properties
          = acc.properties
            ++ (params.filter (fun p => p.name != "self")).map (fun p => (p.name, geminiEntry pd p))
      ∧ (params.foldl (geminiParamStep pd) acc).required
          = acc.required
            ++ (params.filter (fun p => p.name != "self" && !p.hasDefault)).map Param.name := by
  intro params
  induction params with
  | nil => intro acc _ _; simp
  | cons p rest ih =>
    intro acc hnd hfresh
    have hnd2 : (∀ q ∈ rest, q.name ≠ p.name) ∧ (rest.map Param.name).Nodup := by
      simpa using hnd
    simp only [List.foldl_cons]
    by_cases hself : p.name = "self"
    · have hstep : geminiParamStep pd acc p = acc := by
        simp [geminiParamStep, hself]
      rw [hstep]
      have h1 := ih acc (by simpa using hnd2.2)
        (fun q hq => hfresh q (List.mem_cons_of_mem _ hq))
      simp [List.filter_cons, hself, h1.1, h1.2]
    · have hpfresh : p.name ∉ acc.properties.map Prod.fst := hfresh p (List.mem_cons_self p rest)
      have hstepProps : (geminiParamStep pd acc p).properties
          = acc.properties ++ [(p.name, geminiEntry pd p)] := by
        simp only [geminiParamStep, geminiEntry, hself]
        by_cases hd : p.hasDefault = true <;>
          simp [hd, pyDictInsert_fresh _ _ hpfresh]
      have hstepReq : (geminiParamStep pd acc p).required
          = acc.required ++ (if p.hasDefault then [] else [p.name]) := by
        unfold geminiParamStep
        rw [if_neg hself]
        by_cases hd : p.hasDefault = true <;> simp [hd]
      have hrestFresh : ∀ q ∈ rest, q.name ∉ (geminiParamStep pd acc p).properties.map Prod.fst := by
        intro q hq
        rw [hstepProps]
        simp only [List.map_append, List.mem_append]
        rintro (h | h)
        · exact hfresh q (List.mem_cons_of_mem _ hq) h
        · simp at h
          exact hnd2.1 q hq h
      have h1 := ih (geminiParamStep pd acc p) (by simpa using hnd2.2) hrestFresh
      constructor
      · rw [h1.1, hstepProps]
        simp [List.filter_cons, hself]
      · rw [h1.2, hstepReq]
        by_cases hd : p.hasDefault <;> simp [List.filter_cons, hself, hd]

theorem lookup_map_of_nodup {α : Type} (g : Param → α) :
    ∀ (ps : List Param), ((ps.map Param.name).Nodup) →
      ∀ p ∈ ps, (ps.map (fun q => (q.name, g q))).lookup p.name = some (g p)
  | [], _, p, hp => absurd hp (List.not_mem_nil p)
  | q :: rest, hnd, p, hp => by
    have hnd2 : (∀ x ∈ rest, x.name ≠ q.name) ∧ (rest.map Param.name).Nodup := by
      simpa using hnd
    rcases List.mem_cons.mp hp with h | h
    · subst h
      simp [List.lookup]
    · have hne : p.name ≠ q.name := hnd2.1 p h
      have hbeq : (p.name == q.name) = false := by simpa using hne
      simp only [List.map_cons, List.lookup, hbeq]
      exact lookup_map_of_nodup g rest (by simpa using hnd2.2) p h

/-- C6 (corrected). For every callable whose declared parameter names are
distinct (as Python signatures guarantee), the generated ToolDescription has
one property per parameter not named `self`; a parameter is required exactly
when it has no default; and each listed parameter's type token is NUMBER for
`int`/`float`, BOOLEAN for `bool`, and STRING otherwise (including a missing
or unrecognized annotation), with its docstring-derived description. -/
theorem c6_schema_parameters (f : PyFunc) (hnd : (f.params.map Param.name).Nodup) :
    (schemaGemini f).parameters.properties.length
        = (f.params.filter (fun p => p.name != "self")).length
    ∧ (schemaGemini f).parameters.required
        = (f.params.filter (fun p => p.name != "self" && !p.hasDefault)).map Param.name
    ∧ ∀ p ∈ f.params, p.name ≠ "self" →
        (schemaGemini f).parameters.properties.lookup p.name
          = some (geminiEntry (paramDescriptions f.doc) p) := by
  have h := geminiFold_spec (paramDescriptions f.doc) f.params ⟨"OBJECT", [], []⟩ hnd (by simp)
  refine ⟨?_, ?_, ?_⟩
  · simp [schemaGemini, h.1]
  · simp [schemaGemini, h.2]
  · intro p hp hpself
    have hmem : p ∈ f.params.filter (fun p => p.name != "self") :=
      List.mem_filter.mpr ⟨hp, by simp [hpself]⟩
    have hsub : List.Sublist ((f.params.filter (fun p => p.name != "self")).map Param.name)
        (f.params.map Param.name) :=
      List.Sublist.map Param.name (List.filter_sublist f.params)
    have hnd' := hnd.sublist hsub
    have hl := lookup_map_of_nodup (geminiEntry (paramDescriptions f.doc)) _ hnd' p hmem
    simp only [schemaGemini] at *
    rw [h.1]
    simpa using hl

/-- C6 counterexample: for the callable `f(a, self)` the claim's count
`n - (1 if the first parameter is the implicit receiver else 0)` is `2`, but
the generated schema has a single parameter entry — the builder skips a
parameter named `self` at any position, not just an implicit first receiver. -/
theorem c6_counterexample :
    ((schemaGemini ⟨"f", "", [⟨"a", none, false⟩, ⟨"self", none, false⟩]⟩).parameters.properties.length
      = 1)
    ∧ (([⟨"a", none, false⟩, ⟨"self", none, false⟩] : List Param).length
        - (if ((([⟨"a", none, false⟩, ⟨"self", none, false⟩] : List Param).headD
              ⟨"", none, false⟩).name = "self") then 1 else 0) = 2) := by
  constructor
  · rfl
  · decide

/-- Witness for C6: the hypothesis and conclusion hold at a concrete callable. -/
theorem c6_witness :
    ((([⟨"event_name", some .str, false⟩, ⟨"count", some .int, false⟩,
        ⟨"shared", none, true⟩] : List Param).map Param.name).Nodup)
    ∧ (schemaGemini ⟨"add_event", "Tool to add event\n\n:param event_name: Name of the event",
        [⟨"event_name", some .str, false⟩, ⟨"count", some .int, false⟩,
         ⟨"shared", none, true⟩]⟩).parameters.properties.length
      = (([⟨"event_name", some .str, false⟩, ⟨"count", some .int, false⟩,
          ⟨"shared", none, true⟩] : List Param).filter (fun p => p.name != "self")).length :=
  ⟨by decide, (c6_schema_parameters _ (by decide)).1⟩

theorem geminiStep_props (pd : List (String × String)) (p : Param) (acc : ParamsSchema)
    (hself : p.name ≠ "self") :
    (geminiParamStep pd acc p).properties
      = pyDictInsert p.name (geminiEntry pd p) acc.properties := by
  by_cases hd : p.hasDefault = true <;> simp [geminiParamStep, geminiEntry, hself, hd]

theorem geminiStep_pr (pd : List (String × String)) (p : Param) (acc acc' : ParamsSchema)
    (hp : acc.properties = acc'.properties) (hr : acc.required = acc'.required) :
    (geminiParamStep pd acc p).properties = (geminiParamStep pd acc' p).properties
    ∧ (geminiParamStep pd acc p).required = (geminiParamStep pd acc' p).required := by
  by_cases hself : p.name = "self"
  · simp [geminiParamStep, hself, hp, hr]
  · by_cases hd : p.hasDefault = true <;> simp [geminiParamStep, hself, hd, hp, hr]

theorem geminiFold_pr (pd : List (String × String)) :
    ∀ (params : List Param) (acc acc' : ParamsSchema),
      acc.properties = acc'.properties → acc.required = acc'.required →
      (params.foldl (geminiParamStep pd) acc).properties
          = (params.foldl (geminiParamStep pd) acc').properties
      ∧ (params.foldl (geminiParamStep pd) acc).required
          = (params.foldl (geminiParamStep pd) acc').required
  | [], _, _, hp, hr => ⟨hp, hr⟩
  | p :: rest, acc, acc', hp, hr => by
    simp only [List.foldl_cons]
    have h := geminiStep_pr pd p acc acc' hp hr
    exact geminiFold_pr pd rest _ _ h.1 h.2

theorem anthropicStep_eq_geminiStep : anthropicParamStep = geminiParamStep := rfl

theorem openAIFold_rel (pd : List (String × String)) :
    ∀ (params : List Param) (accG accO : ParamsSchema),
      accO.properties = accG.properties.map
          (fun kv => (kv.1, PropEntry.mk (lowerTypeToken kv.2.type) kv.2.description)) →
      accO.required = accG.required →
      (params.foldl (openAIParamStep pd) accO).properties
          = (params.foldl (geminiParamStep pd) accG).properties.map
              (fun kv => (kv.1, PropEntry.mk (lowerTypeToken kv.2.type) kv.2.description))
      ∧ (params.foldl (openAIParamStep pd) accO).required
          = (params.foldl (geminiParamStep pd) accG).required
  | [], _, _, hp, hr => ⟨hp, hr⟩
  | p :: rest, accG, accO, hp, hr => by
    simp only [List.foldl_cons]
    apply openAIFold_rel pd rest
    · by_cases hself : p.name = "self"
      · simpa [openAIParamStep, geminiParamStep, hself] using hp
      · have key : ∀ (tG : String) (d : PropEntry),
            d = ⟨lowerTypeToken tG, (pd.lookup p.name).getD ""⟩ →
            pyDictInsert p.name d accO.properties
              = (pyDictInsert p.name (⟨tG, (pd.lookup p.name).getD ""⟩ : PropEntry)
                  accG.properties).map
                  (fun kv => (kv.1, PropEntry.mk (lowerTypeToken kv.2.type) kv.2.description)) := by
          intro tG d hd
          rw [hp, hd]
          exact pyDictInsert_map (fun e => PropEntry.mk (lowerTypeToken e.type) e.description)
            p.name ⟨tG, (pd.lookup p.name).getD ""⟩ accG.properties
        rcases hann : p.annot with _ | pt
        · by_cases hd : p.hasDefault = true <;>
            simpa [openAIParamStep, geminiParamStep, hself, hann, hd] using
              key "STRING" ⟨"string", (pd.lookup p.name).getD ""⟩ rfl
        · cases pt <;> (by_cases hd : p.hasDefault = true) <;>
            first
            | simpa [openAIParamStep, geminiParamStep, hself, hann, hd] using
                key "NUMBER" ⟨"number", (pd.lookup p.name).getD ""⟩ rfl
            | simpa [openAIParamStep, geminiParamStep, hself, hann, hd] using
                key "BOOLEAN" ⟨"boolean", (pd.lookup p.name).getD ""⟩ rfl
            | simpa [openAIParamStep, geminiParamStep, hself, hann, hd] using
                key "STRING" ⟨"string", (pd.lookup p.name).getD ""⟩ rfl
    · by_cases hself : p.name = "self"
      · simpa [openAIParamStep, geminiParamStep, hself] using hr
      · by_cases hd : p.hasDefault = true <;>
          simp [openAIParamStep, geminiParamStep, hself, hd, hr]

/-- C7 (confirmed). For every callable, the Gemini, OpenAI and Anthropic
schemas differ only in field names (`parameters` vs `input_schema`) and in the
casing of type tokens: they agree on the tool name, the description, the
parameter key sequence and count, the required list, and every per-parameter
description, and their type tokens agree up to upper/lower casing. -/
theorem c7_format_agreement (f : PyFunc) :
    ((schemaGemini f).name = (schemaOpenAI f).name
      ∧ (schemaGemini f).name = (schemaAnthropic f).name)
    ∧ ((schemaGemini f).description = (schemaOpenAI f).description
      ∧ (schemaGemini f).description = (schemaAnthropic f).description)
    ∧ ((schemaGemini f).parameters.properties.map Prod.fst
          = (schemaOpenAI f).parameters.properties.map Prod.fst
      ∧ (schemaGemini f).parameters.properties.map Prod.fst
          = (schemaAnthropic f).input_schema.properties.map Prod.fst)
    ∧ ((schemaGemini f).parameters.properties.length
          = (schemaOpenAI f).parameters.properties.length
      ∧ (schemaGemini f).parameters.properties.length
          = (schemaAnthropic f).input_schema.properties.length)
    ∧ ((schemaGemini f).parameters.required = (schemaOpenAI f).parameters.required
      ∧ (schemaGemini f).parameters.required = (schemaAnthropic f).input_schema.required)
    ∧ ((schemaGemini f).parameters.properties.map (fun kv => (kv.1, kv.2.description))
          = (schemaOpenAI f).parameters.properties.map (fun kv => (kv.1, kv.2.description))
      ∧ (schemaGemini f).parameters.properties.map (fun kv => (kv.1, kv.2.description))
          = (schemaAnthropic f).input_schema.properties.map (fun kv => (kv.1, kv.2.description)))
    ∧ ((schemaOpenAI f).parameters.properties
          = (schemaGemini f).parameters.properties.map
              (fun kv => (kv.1, PropEntry.mk (lowerTypeToken kv.2.type) kv.2.description))
      ∧ (schemaAnthropic f).input_schema.properties.map (fun kv => (kv.1, kv.2.type))
          = (schemaGemini f).parameters.properties.map (fun kv => (kv.1, kv.2.type))) := by
  have hOA := openAIFold_rel (paramDescriptions f.doc) f.params
    ⟨"OBJECT", [], []⟩ ⟨"object", [], []⟩ rfl rfl
  have hAnthG : f.params.foldl (anthropicParamStep (paramDescriptions f.doc)) ⟨"object", [], []⟩
      = f.params.foldl (geminiParamStep (paramDescriptions f.doc)) ⟨"object", [], []⟩ := by
    rw [anthropicStep_eq_geminiStep]
  have hA := geminiFold_pr (paramDescriptions f.doc) f.params
    ⟨"object", [], []⟩ ⟨"OBJECT", [], []⟩ rfl rfl
  refine ⟨⟨rfl, rfl⟩, ⟨rfl, rfl⟩, ⟨?_, ?_⟩, ⟨?_, ?_⟩, ⟨?_, ?_⟩, ⟨?_, ?_⟩, ⟨?_, ?_⟩⟩
  · simp only [schemaGemini, schemaOpenAI, hOA.1, List.map_map]
    rfl
  · simp only [schemaGemini, schemaAnthropic, hAnthG, hA.1]
  · simp only [schemaGemini, schemaOpenAI, hOA.1, List.length_map]
  · simp only [schemaGemini, schemaAnthropic, hAnthG, hA.1]
  · simp only [schemaGemini, schemaOpenAI, hOA.2]
  · simp only [schemaGemini, schemaAnthropic, hAnthG, hA.2]
  · simp only [schemaGemini, schemaOpenAI, hOA.1, List.map_map]
    rfl
  · simp only [schemaGemini, schemaAnthropic, hAnthG, hA.1]
  · simp only [schemaGemini, schemaOpenAI, hOA.1]
  · simp only [schemaGemini, schemaAnthropic, hAnthG, hA.1]

/-! ### Parser lemmas (claims C8, C9 and C10) -/

theorem addCall_append (st : PState) (c : Call) (h : goodKeysL st.calls) :
    (addCall c st).calls = st.calls ++ [(pyStr st.calls.length, c)] := by
  unfold addCall
  have hfresh : pyStr st.calls.length ∉ st.calls.map Prod.fst := by
    rw [h]
    intro hm
    obtain ⟨m, hm1, hm2⟩ := List.mem_map.mp hm
    exact absurd (pyStr_inj hm2) (Nat.ne_of_lt (List.mem_range.mp hm1))
  exact pyDictInsert_fresh _ st.calls hfresh c

theorem addCall_goodKeys (st : PState) (c : Call) (h : goodKeysL st.calls) :
    goodKeysL (addCall c st).calls := by
  unfold goodKeysL
  rw [addCall_append st c h, List.map_append, h, List.length_append]
  simp [List.range_succ]

theorem runLines_spec (valid : List String) :
    ∀ (lines : List String) (st : PState), goodKeysL st.calls →
      ((runLines valid lines st).calls.map Prod.snd
          = st.calls.map Prod.snd ++ lines.filterMap (fun l => lineCallOf (parseLine valid l)))
      ∧ ((runLines valid lines st).diags
          = st.diags ++ lines.filterMap (fun l => lineDiagOf (parseLine valid l)))
      ∧ goodKeysL (runLines valid lines st).calls
  | [], st, h => ⟨by simp [runLines], by simp [runLines], by simpa [runLines] using h⟩
  | l :: rest, st, h => by
    have hrun : runLines valid (l :: rest) st = runLines valid rest (lineStep valid st l) := rfl
    cases hp : parseLine valid l with
    | call c =>
      have hstep : lineStep valid st l = addCall c st := by simp [lineStep, hp]
      have ih := runLines_spec valid rest (addCall c st) (addCall_goodKeys st c h)
      rw [hrun, hstep]
      refine ⟨?_, ?_, ih.2.2⟩
      · rw [ih.1, addCall_append st c h]
        simp [List.filterMap_cons, hp, lineCallOf]
      · rw [ih.2.1]
        have hd : (addCall c st).diags = st.diags := rfl
        rw [hd]
        simp [List.filterMap_cons, hp, lineDiagOf]
    | skip od =>
      cases od with
      | some d =>
        have hstep : lineStep valid st l = { st with diags := st.diags ++ [d] } := by
          simp [lineStep, hp]
        have ih := runLines_spec valid rest ({ st with diags := st.diags ++ [d] }) h
        rw [hrun, hstep]
        refine ⟨?_, ?_, ih.2.2⟩
        · rw [ih.1]
          simp [List.filterMap_cons, hp, lineCallOf]
        · rw [ih.2.1]
          simp [List.filterMap_cons, hp, lineDiagOf]
      | none =>
        have hstep : lineStep valid st l = st := by simp [lineStep, hp]
        have ih := runLines_spec valid rest st h
        rw [hrun, hstep]
        refine ⟨?_, ?_, ih.2.2⟩
        · rw [ih.1]
          simp [List.filterMap_cons, hp, lineCallOf]
        · rw [ih.2.1]
          simp [List.filterMap_cons, hp, lineDiagOf]

theorem parseLine_skip_none (valid : List String) (l : String)
    (h : parseLine valid l = .skip none) : pyStrip l = "" := by
  by_contra hne
  simp only [parseLine] at h
  rw [if_neg hne] at h
  split at h
  · exact (Option.some_ne_none _ (LineResult.skip.inj h)).elim
  · split at h <;> split at h <;> simp_all

theorem argPairStep_skip (args : List (String × Value)) (pairRaw : String)
    (h : pyStrip pairRaw = "" ∨ pyContains (pyStrip pairRaw) '=' = false) :
    argPairStep args pairRaw = args := by
  have hcond : (decide (pyStrip pairRaw = "") || !(pyContains (pyStrip pairRaw) '=')) = true := by
    rcases h with h | h <;> simp [h]
  simp [argPairStep, hcond]

/-- C8 (corrected). Free-text lines with no parenthesis pair or with a name
outside the valid set are dropped with a diagnostic and never abort the
parsing of the remaining lines (the parsed calls and diagnostics are exactly
the per-line results, in input order); an argument pair that cannot be split
on `=` is skipped silently while the line's call is still recorded; a
response with zero valid entries yields an empty call dict, not a failure. -/
theorem c8_parser_recovery :
    (∀ (valid lines : List String),
        (runLines valid lines initPState).calls.map Prod.snd
            = lines.filterMap (fun l => lineCallOf (parseLine valid l))
        ∧ (runLines valid lines initPState).diags
            = lines.filterMap (fun l => lineDiagOf (parseLine valid l)))
    ∧ (∀ (valid : List String) (l : String),
        lineCallOf (parseLine valid l) = none → pyStrip l ≠ "" →
        (lineDiagOf (parseLine valid l)).isSome = true)
    ∧ (∀ (pre post : List String) (pairRaw : String) (args : List (String × Value)),
        (pyStrip pairRaw = "" ∨ pyContains (pyStrip pairRaw) '=' = false) →
        (pre ++ pairRaw :: post).foldl argPairStep args = (pre ++ post).foldl argPairStep args)
    ∧ (∀ (valid lines : List String),
        (∀ l ∈ lines, lineCallOf (parseLine valid l) = none) →
        (runLines valid lines initPState).calls = []) := by
  have hspec := fun valid lines => runLines_spec valid lines initPState rfl
  refine ⟨fun valid lines => ⟨(hspec valid lines).1, (hspec valid lines).2.1⟩, ?_, ?_, ?_⟩
  · intro valid l h hne
    cases hp : parseLine valid l with
    | call c => rw [hp] at h; simp [lineCallOf] at h
    | skip od =>
      cases od with
      | some d => simp [lineDiagOf]
      | none => exact absurd (parseLine_skip_none valid l hp) hne
  · intro pre post pairRaw args h
    rw [List.foldl_append, List.foldl_append, List.foldl_cons, argPairStep_skip _ pairRaw h]
  · intro valid lines h
    have h1 := (hspec valid lines).1
    have h2 : lines.filterMap (fun l => lineCallOf (parseLine valid l)) = [] :=
      List.filterMap_eq_nil_iff.mpr h
    rw [h2] at h1
    have h3 : (runLines valid lines initPState).calls.map Prod.snd = [] := by
      rw [h1]
      simp [initPState]
    exact List.map_eq_nil_iff.mp h3

/-- C8 counterexample: for the line `foo(x)` — whose argument text `x` cannot
be split on `=` — the claim says the entry is dropped with a diagnostic, but
the code records the call `foo` with empty arguments and prints nothing. -/
theorem c8_counterexample :
    (extractFunctionCall ["foo"] (.ok [.ok [.text "foo(x)"]])).1
        = [("0", ⟨"foo", []⟩)]
    ∧ (extractFunctionCall ["foo"] (.ok [.ok [.text "foo(x)"]])).2 = [] := by
  decide

/-- Witness for C8: the hypotheses and conclusions hold at concrete inputs. -/
theorem c8_witness :
    (lineCallOf (parseLine ["foo"] "garbage line") = none
      ∧ pyStrip "garbage line" ≠ ""
      ∧ (lineDiagOf (parseLine ["foo"] "garbage line")).isSome = true)
    ∧ ((∀ l ∈ ["baz(z=3)"], lineCallOf (parseLine ["foo"] l) = none)
      ∧ (runLines ["foo"] ["baz(z=3)"] initPState).calls = []) :=
  ⟨⟨by decide, by decide,
    c8_parser_recovery.2.1 ["foo"] "garbage line" (by decide) (by decide)⟩,
   ⟨by decide, c8_parser_recovery.2.2.2 ["foo"] ["baz(z=3)"] (by decide)⟩⟩

theorem walkParts_ok (valid : List String) :
    ∀ (parts : List Part) (st : PState), parts.any partBad = false →
      walkParts valid parts st = .ok (parts.foldl (partStep valid) st)
  | [], _, _ => rfl
  | p :: rest, st, h => by
    have h2 : partBad p = false ∧ rest.any partBad = false := by
      simpa [Bool.or_eq_false_iff] using h
    cases p with
    | bad => simp [partBad] at h2
    | functionCall n args => exact walkParts_ok valid rest (addCall ⟨n, args⟩ st) h2.2
    | text s => exact walkParts_ok valid rest (processText valid s st) h2.2
    | neither => exact walkParts_ok valid rest st h2.2

theorem walkParts_error (valid : List String) :
    ∀ (parts : List Part) (st : PState), parts.any partBad = true →
      ∃ st', walkParts valid parts st = .error st'
  | [], _, h => by simp at h
  | p :: rest, st, h => by
    cases p with
    | bad => exact ⟨st, rfl⟩
    | functionCall n args =>
      exact walkParts_error valid rest (addCall ⟨n, args⟩ st) (by simpa [partBad] using h)
    | text s =>
      exact walkParts_error valid rest (processText valid s st) (by simpa [partBad] using h)
    | neither =>
      exact walkParts_error valid rest st (by simpa [partBad] using h)

theorem walkCandidates_ok (valid : List String) :
    ∀ (cands : List Candidate) (st : PState), cands.any candidateBad = false →
      walkCandidates valid cands st
        = .ok (cands.foldl (fun st c =>
            match c with
            | .ok parts => parts.foldl (partStep valid) st
            | .bad => st) st)
  | [], _, _ => rfl
  | c :: rest, st, h => by
    have h2 : candidateBad c = false ∧ rest.any candidateBad = false := by
      simpa [Bool.or_eq_false_iff] using h
    cases c with
    | bad => simp [candidateBad] at h2
    | ok parts =>
      have hparts : parts.any partBad = false := by simpa [candidateBad] using h2.1
      have hw := walkParts_ok valid parts st hparts
      simp only [walkCandidates, hw]
      exact walkCandidates_ok valid rest _ h2.2

theorem walkCandidates_error (valid : List String) :
    ∀ (cands : List Candidate) (st : PState), cands.any candidateBad = true →
      ∃ st', walkCandidates valid cands st = .error st'
  | [], _, h => by simp at h
  | c :: rest, st, h => by
    cases c with
    | bad => exact ⟨st, rfl⟩
    | ok parts =>
      by_cases hp : parts.any partBad = true
      · obtain ⟨st', hw⟩ := walkParts_error valid parts st hp
        exact ⟨st', by simp only [walkCandidates, hw]⟩
      · have hp' : parts.any partBad = false := by simpa using hp
        have hw := walkParts_ok valid parts st hp'
        have hrest : rest.any candidateBad = true := by
          have hor : candidateBad (.ok parts) = true ∨ rest.any candidateBad = true := by
            simpa [Bool.or_eq_true_iff] using h
          rcases hor with h' | h'
          · exact absurd (by simpa [candidateBad] using h') hp
          · exact h'
        obtain ⟨st', hc⟩ := walkCandidates_error valid rest (parts.foldl (partStep valid) st) hrest
        exact ⟨st', by simp only [walkCandidates, hw]; exact hc⟩

/-- C10 (confirmed). `extract_function_call` is total — it returns an
OrderedDict on every response value and never propagates an exception: when
walking the response raises anywhere (a malformed response object, candidate
or part), the caught exception yields an empty OrderedDict; otherwise the
result is the plain in-order parse of all parts. -/
theorem c10_extract_total :
    (∀ (valid : List String) (resp : GeminiResponse),
        responseBad resp = true → (extractFunctionCall valid resp).1 = [])
    ∧ (∀ (valid : List String) (resp : GeminiResponse),
        responseBad resp = false → (extractFunctionCall valid resp).1 = goodParse valid resp) := by
  constructor
  · intro valid resp h
    cases resp with
    | bad => rfl
    | ok cands =>
      have h' : cands.any candidateBad = true := h
      obtain ⟨st', hw⟩ := walkCandidates_error valid cands initPState h'
      simp [extractFunctionCall, hw]
  · intro valid resp h
    cases resp with
    | bad => rfl
    | ok cands =>
      have h' : cands.any candidateBad = false := h
      have hw := walkCandidates_ok valid cands initPState h'
      simp [extractFunctionCall, goodParse, hw]

/-- Witness for C10: both hypotheses are satisfiable at concrete responses. -/
theorem c10_witness :
    (responseBad (.ok [.ok [.text "foo(x=1)", .bad]]) = true
      ∧ (extractFunctionCall ["foo"] (.ok [.ok [.text "foo(x=1)", .bad]])).1 = [])
    ∧ (responseBad (.ok [.ok [.text "foo(x=1)"]]) = false
      ∧ (extractFunctionCall ["foo"] (.ok [.ok [.text "foo(x=1)"]])).1
          = goodParse ["foo"] (.ok [.ok [.text "foo(x=1)"]])) :=
  ⟨⟨by decide, c10_extract_total.1 ["foo"] _ (by decide)⟩,
   ⟨by decide, c10_extract_total.2 ["foo"] _ (by decide)⟩⟩

/-! ### Dispatcher lemmas (claims C1 to C5 and C9) -/

theorem execLoop_absorb (impl : Impl) :
    ∀ (calls : List (String × Call)) (st : ExecState), st.aborted.isSome = true →
      execLoop impl calls st = st
  | [], _, _ => rfl
  | (cid, fc) :: rest, st, h => by simp [execLoop, h]

theorem execLoop_append (impl : Impl) :
    ∀ (a b : List (String × Call)) (st : ExecState),
      execLoop impl (a ++ b) st = execLoop impl b (execLoop impl a st)
  | [], _, _ => rfl
  | (cid, fc) :: rest, b, st => by
    by_cases h0 : st.aborted.isSome = true
    · rw [execLoop_absorb impl _ st h0, execLoop_absorb impl _ st h0,
        execLoop_absorb impl b st h0]
    · cases hstep : execStep impl cid fc st with
      | ok st' =>
        have h1 : execLoop impl (((cid, fc) :: rest) ++ b) st = execLoop impl (rest ++ b) st' := by
          simp [execLoop, h0, hstep]
        have h2 : execLoop impl ((cid, fc) :: rest) st = execLoop impl rest st' := by
          simp [execLoop, h0, hstep]
        rw [h1, h2]
        exact execLoop_append impl rest b st'
      | error est =>
        obtain ⟨e, st'⟩ := est
        have h1 : execLoop impl (((cid, fc) :: rest) ++ b) st
            = { st' with aborted := some e, log := st'.log ++ [.errorExecuting e] } := by
          simp [execLoop, h0, hstep]
        have h2 : execLoop impl ((cid, fc) :: rest) st
            = { st' with aborted := some e, log := st'.log ++ [.errorExecuting e] } := by
          simp [execLoop, h0, hstep]
        rw [h1, h2, execLoop_absorb impl b _ (by simp)]

theorem execLoop_ok_cons (impl : Impl) (cid : String) (fc : Call)
    (rest : List (String × Call)) (st st' : ExecState)
    (h0 : st.aborted = none) (h : execStep impl cid fc st = .ok st') :
    execLoop impl ((cid, fc) :: rest) st = execLoop impl rest st' := by
  simp [execLoop, h0, h]

theorem execLoop_error_cons (impl : Impl) (cid : String) (fc : Call)
    (rest : List (String × Call)) (st st' : ExecState) (e : PyErr)
    (h0 : st.aborted = none) (h : execStep impl cid fc st = .error (e, st')) :
    execLoop impl ((cid, fc) :: rest) st
      = { st' with aborted := some e, log := st'.log ++ [.errorExecuting e] } := by
  simp [execLoop, h0, h]

theorem prepare_ok_contains {fc : Call} {margs : List (String × Value)}
    (h : prepareArguments fc = .ok margs) : functionMap.contains fc.name = true := by
  by_contra hc
  have hmem : fc.name ∉ functionMap := by simpa using hc
  simp [prepareArguments, hmem] at h

theorem execStep_prepare_error (impl : Impl) (cid : String) (fc : Call) (st : ExecState)
    (h : functionMap.contains fc.name = false) :
    execStep impl cid fc st = .error (.keyError fc.name, st) := by
  have hmem : fc.name ∉ functionMap := by simpa using h
  simp [execStep, prepareArguments, hmem]

theorem execStep_subst_error (impl : Impl) (cid : String) (fc : Call) (st : ExecState)
    (margs : List (String × Value)) (e : PyErr)
    (h1 : prepareArguments fc = .ok margs)
    (h2 : substResults st.results margs = .error e) :
    execStep impl cid fc st = .error (e, st) := by
  simp [execStep, h1, h2]

theorem execStep_capability_error (impl : Impl) (cid : String) (fc : Call) (st : ExecState)
    (margs rargs : List (String × Value)) (emsg : String)
    (h1 : prepareArguments fc = .ok margs)
    (h2 : substResults st.results margs = .ok rargs)
    (h3 : impl fc.name rargs = .error emsg) :
    execStep impl cid fc st
      = .error (.capability emsg, { st with trace := st.trace ++ [(fc.name, rargs)] }) := by
  have hc : functionMap.contains fc.name = true := prepare_ok_contains h1
  have hmem : fc.name ∈ functionMap := by simpa using hc
  have hne : fc.name ≠ "extract_info_from_todo" := by
    intro he
    rw [he] at hc
    exact absurd hc (by decide)
  simp [execStep, h1, h2, hne, dispatchFunction, hmem, h3]

/-- C1 (amended, proved). When the capability invoked for a call raises, the
exception is caught at pass level and logged, the failing invocation is the
last trace entry, and the pass aborts: the state is exactly the pre-call state
plus the failing invocation, the abort marker and the log line — in
particular no remaining call is dispatched and stored results are kept. -/
theorem c1_capability_failure_aborts (impl : Impl) (cid : String) (fc : Call)
    (rest : List (String × Call)) (st : ExecState)
    (margs rargs : List (String × Value)) (emsg : String)
    (h0 : st.aborted = none)
    (h1 : prepareArguments fc = .ok margs)
    (h2 : substResults st.results margs = .ok rargs)
    (h3 : impl fc.name rargs = .error emsg) :
    execLoop impl ((cid, fc) :: rest) st
      = { st with trace := st.trace ++ [(fc.name, rargs)],
                  aborted := some (.capability emsg),
                  log := st.log ++ [.errorExecuting (.capability emsg)] } := by
  rw [execLoop_error_cons impl cid fc rest st _ _ h0
    (execStep_capability_error impl cid fc st margs rargs emsg h1 h2 h3)]

/-- C1 counterexample: with a two-call sequence `[compress_pdf, get_directory_name]`
whose first capability raises, the call after the failing one is never
invoked — the trace contains only the failing call — refuting the claim that
the remaining calls still execute. -/
theorem c1_counterexample :
    ((executeFunctionCalls implPdfBoom
        [("0", ⟨"compress_pdf", []⟩), ("1", ⟨"get_directory_name", []⟩)]).trace.map Prod.fst
      = ["compress_pdf"])
    ∧ ("get_directory_name" ∉ (executeFunctionCalls implPdfBoom
        [("0", ⟨"compress_pdf", []⟩), ("1", ⟨"get_directory_name", []⟩)]).trace.map Prod.fst)
    ∧ (executeFunctionCalls implPdfBoom
        [("0", ⟨"compress_pdf", []⟩), ("1", ⟨"get_directory_name", []⟩)]).aborted
      = some (.capability "boom") := by
  refine ⟨by decide, by decide, by decide⟩

/-- Witness for C1: the amended theorem applies at a concrete state and call. -/
theorem c1_witness :
    (initState.aborted = none
      ∧ prepareArguments ⟨"compress_pdf", []⟩ = .ok []
      ∧ substResults initState.results [] = .ok []
      ∧ implPdfBoom "compress_pdf" [] = .error "boom")
    ∧ execLoop implPdfBoom
        [("0", ⟨"compress_pdf", []⟩), ("1", ⟨"get_directory_name", []⟩)] initState
      = { initState with trace := [("compress_pdf", [])],
                         aborted := some (.capability "boom"),
                         log := [.errorExecuting (.capability "boom")] } :=
  ⟨⟨rfl, rfl, rfl, rfl⟩,
   c1_capability_failure_aborts implPdfBoom "0" ⟨"compress_pdf", []⟩ _ initState [] [] "boom"
     rfl rfl rfl rfl⟩

/-- C2 (confirmed). When a call's resolved arguments contain a back-reference
to a call id absent from the result store, the pass aborts with the
missing-dependency condition recorded and logged, every result stored by the
earlier calls is retained unchanged, and the calls after the failing one are
never dispatched (the final state does not depend on them). -/
theorem c2_missing_dependency_aborts (impl : Impl) (pre : List (String × Call))
    (cid : String) (fc : Call) (rest : List (String × Call))
    (margs : List (String × Value)) (src : String)
    (h0 : (execLoop impl pre initState).aborted = none)
    (h1 : prepareArguments fc = .ok margs)
    (h2 : substResults (execLoop impl pre initState).results margs
        = .error (.missingResult src)) :
    executeFunctionCalls impl (pre ++ (cid, fc) :: rest)
      = { execLoop impl pre initState with
            aborted := some (.missingResult src),
            log := (execLoop impl pre initState).log
              ++ [.errorExecuting (.missingResult src)] }
    ∧ (executeFunctionCalls impl (pre ++ (cid, fc) :: rest)).results
      = (execLoop impl pre initState).results := by
  have hmain : executeFunctionCalls impl (pre ++ (cid, fc) :: rest)
      = { execLoop impl pre initState with
            aborted := some (.missingResult src),
            log := (execLoop impl pre initState).log
              ++ [.errorExecuting (.missingResult src)] } := by
    unfold executeFunctionCalls
    rw [execLoop_append impl pre ((cid, fc) :: rest) initState]
    rw [execLoop_error_cons impl cid fc rest _ _ _ h0
      (execStep_subst_error impl cid fc _ margs _ h1 h2)]
  exact ⟨hmain, by rw [hmain]⟩

/-- Witness for C2: a concrete pass `[get_directory_name, send_email, scan_directory]`
where the second call references the absent id `5`: the pass aborts, the first
call's stored result survives, the third call never runs. -/
theorem c2_witness :
    ((execLoop implTmp [("0", ⟨"get_directory_name", []⟩)] initState).aborted = none
      ∧ prepareArguments ⟨"send_email", [("email_address", .str "<result_from_5>")]⟩
          = .ok [("recipient", .str "<result_from_5>")]
      ∧ substResults (execLoop implTmp
            [("0", ⟨"get_directory_name", []⟩)] initState).results
          [("recipient", .str "<result_from_5>")]
          = .error (.missingResult "5"))
    ∧ (executeFunctionCalls implTmp
        ([("0", ⟨"get_directory_name", []⟩)]
          ++ ("1", ⟨"send_email", [("email_address", .str "<result_from_5>")]⟩)
            :: [("2", ⟨"scan_directory", []⟩)])).results
      = (execLoop implTmp [("0", ⟨"get_directory_name", []⟩)] initState).results :=
  ⟨⟨rfl, rfl, rfl⟩,
   (c2_missing_dependency_aborts implTmp
      [("0", ⟨"get_directory_name", []⟩)] "1"
      ⟨"send_email", [("email_address", .str "<result_from_5>")]⟩
      [("2", ⟨"scan_directory", []⟩)]
      [("recipient", .str "<result_from_5>")] "5"
      rfl rfl rfl).2⟩

/-- C3 (amended, proved). A call naming a tool absent from the registry makes
`prepare_arguments` raise `KeyError`; the pass-level handler catches and logs
it and the pass ends: neither the unknown call nor any remaining call is
attempted, and the state is otherwise unchanged. -/
theorem c3_unknown_tool_aborts (impl : Impl) (cid : String) (fc : Call)
    (rest : List (String × Call)) (st : ExecState)
    (h0 : st.aborted = none)
    (h1 : functionMap.contains fc.name = false) :
    execLoop impl ((cid, fc) :: rest) st
      = { st with aborted := some (.keyError fc.name),
                  log := st.log ++ [.errorExecuting (.keyError fc.name)] } := by
  rw [execLoop_error_cons impl cid fc rest st _ _ h0
    (execStep_prepare_error impl cid fc st h1)]

/-- C3 counterexample: after a call to the unknown tool `transmogrify`, the
following `get_directory_name` call is never attempted (the trace stays
empty) — refuting the claim that only the unknown call is skipped. -/
theorem c3_counterexample :
    ((executeFunctionCalls implOk
        [("0", ⟨"transmogrify", []⟩), ("1", ⟨"get_directory_name", []⟩)]).trace = [])
    ∧ (executeFunctionCalls implOk
        [("0", ⟨"transmogrify", []⟩), ("1", ⟨"get_directory_name", []⟩)]).results = []
    ∧ (executeFunctionCalls implOk
        [("0", ⟨"transmogrify", []⟩), ("1", ⟨"get_directory_name", []⟩)]).aborted
      = some (.keyError "transmogrify") := by
  refine ⟨by decide, by decide, by decide⟩

/-- Witness for C3: the amended theorem applies at a concrete unknown name. -/
theorem c3_witness :
    (initState.aborted = none ∧ functionMap.contains "transmogrify" = false)
    ∧ execLoop implOk
        [("0", ⟨"transmogrify", []⟩), ("1", ⟨"get_directory_name", []⟩)] initState
      = { initState with aborted := some (.keyError "transmogrify"),
                         log := [.errorExecuting (.keyError "transmogrify")] } :=
  ⟨⟨rfl, by decide⟩,
   c3_unknown_tool_aborts implOk "0" ⟨"transmogrify", []⟩ _ initState rfl (by decide)⟩

/-- C4 (code bug). A call to `extract_info_from_todo` with a file list
containing `todo.txt` raises `KeyError` inside `prepare_arguments` — the name
is missing from `function_map` — so the pass aborts before the special
handling block of agent.py lines 181-203 is reached: no sub-task (and no call
at all) is ever dispatched, and no result is stored. -/
theorem c4_todo_dispatch_unreachable :
    ((executeFunctionCalls implOk
        [("0", ⟨"extract_info_from_todo",
            [("file_path", .strList ["/home/user/Desktop/todo.txt"])]⟩)]).trace = [])
    ∧ (executeFunctionCalls implOk
        [("0", ⟨"extract_info_from_todo",
            [("file_path", .strList ["/home/user/Desktop/todo.txt"])]⟩)]).results = []
    ∧ (executeFunctionCalls implOk
        [("0", ⟨"extract_info_from_todo",
            [("file_path", .strList ["/home/user/Desktop/todo.txt"])]⟩)]).aborted
      = some (.keyError "extract_info_from_todo") := by
  refine ⟨by decide, by decide, by decide⟩

/-- C5 (code bug). After `get_directory_name` returns `/tmp/organize`, the
dispatcher stores the value in `current_path`, but the next call —
`scan_directory`, whose signature requires a path the model did not supply —
is invoked with empty arguments: the ambient value is never injected into any
later call's resolved arguments. -/
theorem c5_no_path_injection :
    ((executeFunctionCalls implDir
        [("0", ⟨"get_directory_name", []⟩), ("1", ⟨"scan_directory", []⟩)]).currentPath
      = some (.str "/tmp/organize"))
    ∧ (executeFunctionCalls implDir
        [("0", ⟨"get_directory_name", []⟩), ("1", ⟨"scan_directory", []⟩)]).trace
      = [("get_directory_name", []), ("scan_directory", [])]
    ∧ (executeFunctionCalls implDir
        [("0", ⟨"get_directory_name", []⟩), ("1", ⟨"scan_directory", []⟩)]).aborted
      = none := by
  refine ⟨by decide, by decide, by decide⟩

theorem dispatchFunction_trace (impl : Impl) (name : String)
    (args : List (String × Value)) (st : ExecState) :
    (∀ v st', dispatchFunction impl name args st = .ok (v, st') →
        st'.trace = st.trace ++ [(name, args)])
    ∧ (∀ e st', dispatchFunction impl name args st = .error (e, st') →
        st'.trace = st.trace ∨ st'.trace = st.trace ++ [(name, args)]) := by
  by_cases hmem : name ∈ functionMap
  · cases him : impl name args with
    | ok v =>
      constructor
      · intro v' st' h
        simp [dispatchFunction, hmem, him] at h
        rw [← h.2]
      · intro e st' h
        simp [dispatchFunction, hmem, him] at h
    | error msg =>
      constructor
      · intro v' st' h
        simp [dispatchFunction, hmem, him] at h
      · intro e st' h
        simp [dispatchFunction, hmem, him] at h
        right
        rw [← h.2]
  · constructor
    · intro v' st' h
      simp [dispatchFunction, hmem] at h
    · intro e st' h
      simp [dispatchFunction, hmem] at h
      left
      rw [← h.2]

theorem execStep_trace (impl : Impl) (cid : String) (fc : Call) (st : ExecState) :
    (∀ st', execStep impl cid fc st = .ok st' →
        ∃ t, st'.trace = st.trace ++ t ∧ List.Sublist (t.map Prod.fst) [fc.name])
    ∧ (∀ e st', execStep impl cid fc st = .error (e, st') →
        ∃ t, st'.trace = st.trace ++ t ∧ List.Sublist (t.map Prod.fst) [fc.name]) := by
  cases hprep : prepareArguments fc with
  | error e0 =>
    constructor
    · intro st' h
      simp [execStep, hprep] at h
    · intro e st' h
      simp [execStep, hprep] at h
      refine ⟨[], by simp [← h.2], by simp⟩
  | ok margs =>
    cases hsub : substResults st.results margs with
    | error e0 =>
      constructor
      · intro st' h
        simp [execStep, hprep, hsub] at h
      · intro e st' h
        simp [execStep, hprep, hsub] at h
        refine ⟨[], by simp [← h.2], by simp⟩
    | ok rargs =>
      have hne : fc.name ≠ "extract_info_from_todo" := by
        intro he
        have hcon := prepare_ok_contains hprep
        rw [he] at hcon
        exact absurd hcon (by decide)
      cases hdisp : dispatchFunction impl fc.name rargs st with
      | ok vst =>
        obtain ⟨v, st1⟩ := vst
        have ht1 : st1.trace = st.trace ++ [(fc.name, rargs)] :=
          (dispatchFunction_trace impl fc.name rargs st).1 v st1 hdisp
        constructor
        · intro st' h
          simp [execStep, hprep, hsub, hne, hdisp] at h
          refine ⟨[(fc.name, rargs)], ?_, by simp⟩
          rw [← h]
          by_cases hg : fc.name = "get_directory_name" <;> simp [hg, ht1]
        · intro e st' h
          simp [execStep, hprep, hsub, hne, hdisp] at h
      | error est =>
        obtain ⟨e0, st1⟩ := est
        have ht1 := (dispatchFunction_trace impl fc.name rargs st).2 e0 st1 hdisp
        constructor
        · intro st' h
          simp [execStep, hprep, hsub, hne, hdisp] at h
        · intro e st' h
          simp [execStep, hprep, hsub, hne, hdisp] at h
          rcases ht1 with ht | ht
          · exact ⟨[], by simp [← h.2, ht], by simp⟩
          · exact ⟨[(fc.name, rargs)], by simp [← h.2, ht], by simp⟩

theorem execLoop_trace (impl : Impl) :
    ∀ (calls : List (String × Call)) (st : ExecState),
      ∃ t, (execLoop impl calls st).trace = st.trace ++ t
        ∧ List.Sublist (t.map Prod.fst) (calls.map (fun c => c.2.name))
  | [], st => ⟨[], by simp [execLoop], by simp⟩
  | (cid, fc) :: rest, st => by
    by_cases h0 : st.aborted.isSome = true
    · exact ⟨[], by simp [execLoop_absorb impl _ st h0], by simp⟩
    · have h0' : st.aborted = none := by
        cases hab : st.aborted
        · rfl
        · rw [hab] at h0; simp at h0
      cases hstep : execStep impl cid fc st with
      | ok st' =>
        obtain ⟨t0, ht0, hs0⟩ := (execStep_trace impl cid fc st).1 st' hstep
        obtain ⟨t1, ht1, hs1⟩ := execLoop_trace impl rest st'
        refine ⟨t0 ++ t1, ?_, ?_⟩
        · rw [execLoop_ok_cons impl cid fc rest st st' h0' hstep, ht1, ht0,
            List.append_assoc]
        · rw [List.map_append, List.map_cons]
          exact List.Sublist.append hs0 hs1
      | error est =>
        obtain ⟨e, st'⟩ := est
        obtain ⟨t0, ht0, hs0⟩ := (execStep_trace impl cid fc st).2 e st' hstep
        refine ⟨t0, ?_, ?_⟩
        · rw [execLoop_error_cons impl cid fc rest st st' e h0' hstep]
          exact ht0
        · rw [List.map_cons]
          exact hs0.trans ((List.nil_sublist _).cons₂ fc.name)

theorem substResults_keys (results : List (String × Value)) :
    ∀ (margs rargs : List (String × Value)),
      substResults results margs = .ok rargs → rargs.map Prod.fst = margs.map Prod.fst
  | [], rargs, h => by
    simp only [substResults] at h
    injection h with h'
    rw [← h']
  | (k, v) :: rest, rargs, h => by
    have step : ∀ (x : Value) (r' : List (String × Value)),
        substResults results rest = .ok r' → rargs = (k, x) :: r' →
        rargs.map Prod.fst = ((k, v) :: rest).map Prod.fst := by
      intro x r' hrec hr
      rw [hr]
      simp [substResults_keys results rest r' hrec]
    cases v with
    | str s =>
      simp only [substResults] at h
      by_cases hsw : pyStartsWith s "<result_from_" = true
      · rw [if_pos hsw] at h
        cases hlk : List.lookup ((s.drop 13).dropRight 1) results with
        | some rv =>
          rw [hlk] at h
          cases hrec : substResults results rest with
          | ok r' =>
            rw [hrec] at h
            injection h with h'
            exact step rv r' hrec h'.symm
          | error e0 => rw [hrec] at h; exact Except.noConfusion h
        | none => rw [hlk] at h; exact Except.noConfusion h
      · rw [if_neg hsw] at h
        cases hrec : substResults results rest with
        | ok r' =>
          rw [hrec] at h
          injection h with h'
          exact step (.str s) r' hrec h'.symm
        | error e0 => rw [hrec] at h; exact Except.noConfusion h
    | strList ss =>
      simp only [substResults] at h
      cases hrec : substResults results rest with
      | ok r' =>
        rw [hrec] at h
        injection h with h'
        exact step (.strList ss) r' hrec h'.symm
      | error e0 => rw [hrec] at h; exact Except.noConfusion h
    | pyNone =>
      simp only [substResults] at h
      cases hrec : substResults results rest with
      | ok r' =>
        rw [hrec] at h
        injection h with h'
        exact step .pyNone r' hrec h'.symm
      | error e0 => rw [hrec] at h; exact Except.noConfusion h
    | taskList ts =>
      simp only [substResults] at h
      cases hrec : substResults results rest with
      | ok r' =>
        rw [hrec] at h
        injection h with h'
        exact step (.taskList ts) r' hrec h'.symm
      | error e0 => rw [hrec] at h; exact Except.noConfusion h

/-- C9 (confirmed). Order is preserved end to end: the parser emits the valid
entries in their order of appearance in the input text; argument resolution
maps each call's argument list in place, preserving its key order; and the
dispatcher's invocation trace is an order-preserving subsequence of the
CallSequence — calls are never reordered. -/
theorem c9_order_preserved :
    (∀ (valid lines : List String),
        (runLines valid lines initPState).calls.map Prod.snd
          = lines.filterMap (fun l => lineCallOf (parseLine valid l)))
    ∧ (∀ (results margs rargs : List (String × Value)),
        substResults results margs = .ok rargs →
        rargs.map Prod.fst = margs.map Prod.fst)
    ∧ (∀ (impl : Impl) (calls : List (String × Call)),
        List.Sublist ((executeFunctionCalls impl calls).trace.map Prod.fst)
          (calls.map (fun c => c.2.name))) := by
  refine ⟨fun valid lines => (runLines_spec valid lines initPState rfl).1, ?_, ?_⟩
  · intro results margs rargs h
    exact substResults_keys results margs rargs h
  · intro impl calls
    obtain ⟨t, ht, hs⟩ := execLoop_trace impl calls initState
    unfold executeFunctionCalls
    rw [ht]
    simpa [initState] using hs

end Organizer
